import Mathlib

/-!
Verification of the Admission-Assistant voice front end.

Shallow embedding of:
- the keyword intent classifier (src/code/ml_model.cpp),
- the streaming STT client session machine (src/esp32/stt_client.cpp),
- the TTS request/playback loop (src/esp32/tts_client.cpp),
- the AudioIO rms level measurement (src/esp32/audio_io.cpp).

Scores computed with C float arithmetic in the source are modelled with
rationals: every reachable score is of the form k/3 or k/4 with k at most 4,
and on that finite set the float comparisons of the source (strict greater
than between scores, and comparison against the literal 0.15f) order the
values exactly as the rationals do, so the rational model is faithful.
The double-precision rms computation is modelled over the reals; for frames
of at most 512 samples of magnitude at most 32768 the double accumulation is
exact and the final sqrt and division are correctly rounded, so the real
model agrees with the source to within floating-point tolerance.
-/

/-- Substring machinery: does the first character list occur as a prefix of
the second. Models the character comparison underlying Arduino
String.indexOf. -/
def startsWithList : List Char → List Char → Bool
  | [], _ => true
  | _ :: _, [] => false
  | a :: as, b :: bs => a == b && startsWithList as bs

/-- Does the word occur as a contiguous substring of the text. -/
def hasSub (w : List Char) : List Char → Bool
  | [] => startsWithList w []
  | c :: rest => startsWithList w (c :: rest) || hasSub w rest

/-- Model of text.indexOf(word) being nonnegative in ml_model.cpp line 31:
the word occurs somewhere in the text. -/
def occursB (w t : String) : Bool := hasSub w.toList t.toList

/-- AdmissionModel normalize (ml_model.cpp lines 22 to 26): lowercase the
input, no other transformation. -/
def normalizeText (s : String) : String := String.mk (s.data.map Char.toLower)

/-- scoreCategory (ml_model.cpp lines 28 to 37): fraction of the category
keywords that occur as substrings of the text; 0 when the keyword list is
empty. mkRat hits count is the exact rational hits divided by count. -/
def scoreCategory (text : String) (words : List String) : ℚ :=
  if words.length = 0 then 0
  else mkRat (words.countP (fun w => occursB w text)) words.length

/-- ClassificationResult (ml_model.h): category label plus confidence. -/
structure ClassificationResult where
  category : String
  confidence : ℚ
deriving DecidableEq, Repr

/-- The fixed category table of ml_model.cpp lines 6 to 11 and 44 to 51, in
the enumeration order of the cats array. -/
def cats : List (String × List String) :=
  [("requirements", ["requirement", "eligibility", "criteria"]),
   ("deadline", ["deadline", "last date", "timeline"]),
   ("fee", ["fee", "cost", "payment", "charge"]),
   ("process", ["apply", "application", "process", "online"]),
   ("documents", ["document", "documents", "papers", "certificates"]),
   ("greeting", ["hello", "hi", "hey"])]

/-- One iteration of the best-tracking loop (ml_model.cpp lines 53 to 59):
replace the running best exactly when the new score is strictly greater. -/
def stepBest (text : String) (best : ClassificationResult)
    (c : String × List String) : ClassificationResult :=
  if scoreCategory text c.2 > best.confidence then ⟨c.1, scoreCategory text c.2⟩
  else best

/-- The full scan loop of classify, starting from the unknown seed. -/
def classifyFold (raw : String) : ClassificationResult :=
  cats.foldl (stepBest (normalizeText raw)) ⟨"unknown", 0⟩

/-- AdmissionModel.classify (ml_model.cpp lines 39 to 66): scan all
categories tracking the strict best, then demote the category to unknown if
the best confidence is below the 0.15 floor, keeping the confidence. -/
def classify (raw : String) : ClassificationResult :=
  if (classifyFold raw).confidence < mkRat 3 20 then
    ⟨"unknown", (classifyFold raw).confidence⟩
  else classifyFold raw

/-- Binary maximum on the rationals, written out with the executable rational
order so that concrete values evaluate. -/
def qmax (a b : ℚ) : ℚ := if a < b then b else a

/-- The category table entry at a given position of the enumeration order,
with a harmless default out of range. -/
def catAt (n : Nat) : String × List String := cats.getD n ("", [])

/-- The list of per-category scores for a raw input, in enumeration order. -/
def catScores (raw : String) : List ℚ :=
  cats.map (fun c => scoreCategory (normalizeText raw) c.2)

/-- The best score over all categories (the loop starts from confidence 0). -/
def bestScore (raw : String) : ℚ := (catScores raw).foldl qmax 0

/-- Session states of the streaming STT client (stt_client.h line 7). -/
inductive STTState where
  | Idle
  | Streaming
deriving DecidableEq, Repr

/-- Outcome of one HTTP request as seen by the client: the integer status
code returned by the transport, and the response body. -/
structure HttpResp where
  status : Int
  body : String
deriving DecidableEq, Repr

/-- STTClient.beginStream (stt_client.cpp lines 12 to 17): reject unless
Idle, otherwise move to Streaming. Returns the boolean result and the state
after the call. -/
def sttBeginStream (s : STTState) : Bool × STTState :=
  if s ≠ STTState.Idle then (false, s) else (true, STTState.Streaming)

/-- STTClient.pushAudio (stt_client.cpp lines 19 to 28): reject unless
Streaming; otherwise POST the chunk and report rc strictly positive. The
chunk bytes do not influence the state or the result beyond being the
request body; rc is the transport return code. -/
def sttPushAudio (s : STTState) (chunk : List Int) (rc : Int) : Bool × STTState :=
  if s ≠ STTState.Streaming then (false, s)
  else (decide (rc > 0), s)

/-- STTClient.endStream (stt_client.cpp lines 30 to 43): reject unless
Streaming; otherwise GET the finish endpoint, store the body into the
callers finalText on status 200 and the empty string otherwise, always
reset the state to Idle, and return whether finalText is nonempty. The
String argument is the prior contents of the callers finalText
out-parameter; the last component is its contents after the call. -/
def sttEndStream (s : STTState) (resp : HttpResp) (finalText : String) :
    Bool × STTState × String :=
  if s ≠ STTState.Streaming then (false, s, finalText)
  else
    let ft := if resp.status = 200 then resp.body else ""
    (!ft.isEmpty, STTState.Idle, ft)

/-- TTS synthesis response as seen by the client: transport status code and
the raw little-endian PCM byte stream of the whole response. -/
structure TtsResp where
  status : Int
  bytes : List Nat
deriving DecidableEq, Repr

/-- Decode pairs of little-endian bytes into signed 16 bit samples, as done
by reinterpreting the byte buffer as int16 in tts_client.cpp line 32; a
trailing odd byte yields no sample (readBytes divided by 2 rounds down). -/
def decode16 : List Nat → List Int
  | lo :: hi :: rest =>
    (if lo + 256 * hi < 32768 then ((lo + 256 * hi : Nat) : Int)
     else ((lo + 256 * hi : Nat) : Int) - 65536) :: decode16 rest
  | _ => []

/-- The playback pull loop of TTSClient.requestAndPlay (tts_client.cpp lines
26 to 33): while bytes remain, read at most 1024 bytes (one 512 sample
frame), forward the decoded samples to the sink, and repeat until the
connection closes. Polls with no data available only delay and are dropped
from this model since they forward nothing. Returns every sample forwarded
to AudioIO.playSamples. -/
def ttsPlayLoop (bytes : List Nat) : List Int :=
  if h : bytes = [] then []
  else
    decode16 (bytes.take (min bytes.length 1024)) ++
      ttsPlayLoop (bytes.drop (min bytes.length 1024))
termination_by bytes.length
decreasing_by
  simp only [List.length_drop]
  have hlen : 0 < bytes.length := List.length_pos.mpr h
  omega

/-- TTSClient.requestAndPlay (tts_client.cpp lines 12 to 36): POST the
synthesis request; on a non-200 status end the connection and return false
with nothing played; on 200 run the pull loop over the response stream and
return true. The result is the returned boolean and the samples forwarded
to the playback sink. -/
def ttsRequestAndPlay (resp : TtsResp) : Bool × List Int :=
  if resp.status ≠ 200 then (false, [])
  else (true, ttsPlayLoop resp.bytes)

/-- Running sum of squares of the samples, in the accumulation order of the
loop in AudioIO.rms (audio_io.cpp lines 86 to 90), over the reals (the
source accumulates in double precision). -/
noncomputable def sumSq (buf : List Int) : ℝ :=
  buf.foldl (fun (acc : ℝ) (s : Int) => acc + (s : ℝ) * (s : ℝ)) 0

/-- AudioIO.rms (audio_io.cpp lines 84 to 92): 0 for an empty frame,
otherwise the square root of the mean square divided by 32768. The buffer is
the list of valid samples of the frame (samples up to count). -/
noncomputable def rms (buf : List Int) : ℝ :=
  if buf.length = 0 then 0
  else Real.sqrt (sumSq buf / (buf.length : ℝ)) / 32768

lemma qmax_choice (a b : ℚ) : qmax a b = a ∨ qmax a b = b := by
  unfold qmax; split <;> simp

lemma le_qmax_left (a b : ℚ) : a ≤ qmax a b := by
  unfold qmax; split <;> [exact le_of_lt (by assumption); exact le_refl a]

lemma le_qmax_right (a b : ℚ) : b ≤ qmax a b := by
  unfold qmax; split <;> [exact le_refl b; exact not_lt.mp (by assumption)]

lemma qmax_le (a b m : ℚ) (ha : a ≤ m) (hb : b ≤ m) : qmax a b ≤ m := by
  unfold qmax; split <;> assumption

lemma le_foldl_qmax (l : List ℚ) : ∀ a : ℚ, a ≤ l.foldl qmax a := by
  induction l with
  | nil => intro a; exact le_refl a
  | cons x l ih =>
    intro a
    exact le_trans (le_qmax_left a x) (ih (qmax a x))

lemma mem_le_foldl_qmax (l : List ℚ) : ∀ a : ℚ, ∀ x ∈ l, x ≤ l.foldl qmax a := by
  induction l with
  | nil => intro a x hx; cases hx
  | cons y l ih =>
    intro a x hx
    rcases List.mem_cons.mp hx with rfl | hx
    · exact le_trans (le_qmax_right a x) (le_foldl_qmax l (qmax a x))
    · exact ih (qmax a y) x hx

lemma foldl_qmax_le (l : List ℚ) :
    ∀ a m : ℚ, a ≤ m → (∀ x ∈ l, x ≤ m) → l.foldl qmax a ≤ m := by
  induction l with
  | nil => intro a m ha _; exact ha
  | cons y l ih =>
    intro a m ha hl
    exact ih (qmax a y) m (qmax_le a y m ha (hl y (List.mem_cons_self y l)))
      (fun x hx => hl x (List.mem_cons_of_mem y hx))

lemma foldl_qmax_eq (l : List ℚ) (a m : ℚ) (ha : a ≤ m) (hl : ∀ x ∈ l, x ≤ m)
    (hm : m ∈ l) : l.foldl qmax a = m :=
  le_antisymm (foldl_qmax_le l a m ha hl) (mem_le_foldl_qmax l a m hm)

lemma scoreCategory_nonneg (text : String) (ws : List String) :
    0 ≤ scoreCategory text ws := by
  unfold scoreCategory
  split
  · exact le_refl 0
  · rw [Rat.mkRat_eq_div]
    positivity

lemma scoreCategory_zero (text : String) (ws : List String)
    (h : ∀ w ∈ ws, occursB w text = false) : scoreCategory text ws = 0 := by
  unfold scoreCategory
  split
  · rfl
  · have hc : ws.countP (fun w => occursB w text) = 0 :=
      List.countP_eq_zero.mpr (by intro w hw; simp [h w hw])
    rw [hc]
    simp

lemma scoreCategory_full (text : String) (ws : List String)
    (hlen : ws.length ≠ 0) (h : ∀ w ∈ ws, occursB w text = true) :
    scoreCategory text ws = 1 := by
  unfold scoreCategory
  rw [if_neg hlen]
  have hc : ws.countP (fun w => occursB w text) = ws.length :=
    List.countP_eq_length.mpr (by intro w hw; simp [h w hw])
  rw [hc, Rat.mkRat_eq_div]
  have : (ws.length : ℚ) ≠ 0 := by exact_mod_cast hlen
  field_simp

/-- Characterization of the best-tracking scan: either no category ever beats
the seed and the fold returns the seed, or the fold returns the first
category whose score strictly exceeds the seed and every earlier score, and
no score anywhere in the list exceeds it. -/
lemma foldBest_spec (text : String) (l : List (String × List String)) :
    ∀ b : ClassificationResult,
      (List.foldl (stepBest text) b l = b ∧
        ∀ c ∈ l, scoreCategory text c.2 ≤ b.confidence) ∨
      (∃ i, ∃ hi : i < l.length,
        List.foldl (stepBest text) b l =
          ⟨(l.get ⟨i, hi⟩).1, scoreCategory text (l.get ⟨i, hi⟩).2⟩ ∧
        b.confidence < scoreCategory text (l.get ⟨i, hi⟩).2 ∧
        (∀ j, ∀ hj : j < l.length, j < i →
          scoreCategory text (l.get ⟨j, hj⟩).2 <
            scoreCategory text (l.get ⟨i, hi⟩).2) ∧
        (∀ j, ∀ hj : j < l.length,
          scoreCategory text (l.get ⟨j, hj⟩).2 ≤
            scoreCategory text (l.get ⟨i, hi⟩).2)) := by
  induction l with
  | nil =>
    intro b
    left
    exact ⟨rfl, by intro c hc; cases hc⟩
  | cons c l ih =>
    intro b
    rw [List.foldl_cons]
    by_cases hc : scoreCategory text c.2 > b.confidence
    · have hstep : stepBest text b c = ⟨c.1, scoreCategory text c.2⟩ := by
        unfold stepBest; rw [if_pos hc]
      rw [hstep]
      rcases ih ⟨c.1, scoreCategory text c.2⟩ with
        ⟨heq, hall⟩ | ⟨i, hi, heq, hgt, hfirst, hmax⟩
      · right
        refine ⟨0, Nat.succ_pos _, heq, hc, ?_, ?_⟩
        · intro j hj hji; omega
        · intro j hj
          cases j with
          | zero => exact le_refl _
          | succ j =>
            exact hall (l.get ⟨j, Nat.lt_of_succ_lt_succ hj⟩)
              (List.get_mem l _ _)
      · right
        refine ⟨i + 1, Nat.succ_lt_succ hi, heq, lt_trans hc hgt, ?_, ?_⟩
        · intro j hj hji
          cases j with
          | zero => exact hgt
          | succ j =>
            exact hfirst j (Nat.lt_of_succ_lt_succ hj) (Nat.lt_of_succ_lt_succ hji)
        · intro j hj
          cases j with
          | zero => exact le_of_lt hgt
          | succ j => exact hmax j (Nat.lt_of_succ_lt_succ hj)
    · have hstep : stepBest text b c = b := by
        unfold stepBest; rw [if_neg hc]
      rw [hstep]
      rcases ih b with ⟨heq, hall⟩ | ⟨i, hi, heq, hgt, hfirst, hmax⟩
      · left
        refine ⟨heq, ?_⟩
        intro d hd
        rcases List.mem_cons.mp hd with rfl | hd
        · exact not_lt.mp hc
        · exact hall d hd
      · right
        refine ⟨i + 1, Nat.succ_lt_succ hi, heq, hgt, ?_, ?_⟩
        · intro j hj hji
          cases j with
          | zero => exact lt_of_le_of_lt (le_of_not_lt hc) hgt
          | succ j =>
            exact hfirst j (Nat.lt_of_succ_lt_succ hj) (Nat.lt_of_succ_lt_succ hji)
        · intro j hj
          cases j with
          | zero => exact le_of_lt (lt_of_le_of_lt (le_of_not_lt hc) hgt)
          | succ j => exact hmax j (Nat.lt_of_succ_lt_succ hj)

lemma catAt_get (i : Nat) (hi : i < cats.length) : catAt i = cats.get ⟨i, hi⟩ := by
  simp [catAt, List.getD_eq_getElem?_getD, List.getElem?_eq_getElem hi,
    List.get_eq_getElem]

lemma classifyFold_confidence (raw : String) :
    (classifyFold raw).confidence = bestScore raw := by
  rcases foldBest_spec (normalizeText raw) cats ⟨"unknown", 0⟩ with
    ⟨heq, hall⟩ | ⟨i, hi, heq, hgt, hfirst, hmax⟩
  · have h0 : (classifyFold raw).confidence = 0 := by unfold classifyFold; rw [heq]
    rw [h0]
    refine (le_antisymm (foldl_qmax_le _ 0 0 (le_refl 0) ?_) (le_foldl_qmax _ 0)).symm
    intro x hx
    obtain ⟨c, hc, rfl⟩ := List.mem_map.mp hx
    exact hall c hc
  · have h0 : (classifyFold raw).confidence =
        scoreCategory (normalizeText raw) ((cats.get ⟨i, hi⟩).2) := by
      unfold classifyFold; rw [heq]
    rw [h0]
    refine (foldl_qmax_eq _ 0 _ (le_of_lt hgt) ?_ ?_).symm
    · intro x hx
      obtain ⟨c, hc, rfl⟩ := List.mem_map.mp hx
      obtain ⟨⟨j, hj⟩, rfl⟩ := List.mem_iff_get.mp hc
      exact hmax j hj
    · exact List.mem_map.mpr ⟨cats.get ⟨i, hi⟩, List.get_mem _ _ _, rfl⟩

lemma classify_confidence (raw : String) :
    (classify raw).confidence = bestScore raw := by
  unfold classify
  split
  · exact classifyFold_confidence raw
  · exact classifyFold_confidence raw

/-- C1 counterexample: on the input of the worked example, classify does not
return category greeting with confidence 1/3; the returned category is not
greeting at all. Both the word document and the word documents occur as
substrings of the normalized text, so the documents category scores 2/4,
which beats the greeting score 1/3. -/
theorem classify_example_hello_cex :
    classify "Hello, what documents do I need?" ≠ ⟨"greeting", mkRat 1 3⟩ ∧
    (classify "Hello, what documents do I need?").category ≠ "greeting" := by
  decide

/-- C1 amended: for the input of the worked example, classify returns
category documents with confidence 1/2: the greeting keywords score 1/3 but
the documents keywords score 2/4 because both document and documents match
as substrings, so documents is the best-scoring category. -/
theorem classify_example_hello :
    classify "Hello, what documents do I need?" = ⟨"documents", mkRat 1 2⟩ ∧
    scoreCategory (normalizeText "Hello, what documents do I need?")
      ["hello", "hi", "hey"] = mkRat 1 3 ∧
    scoreCategory (normalizeText "Hello, what documents do I need?")
      ["document", "documents", "papers", "certificates"] = mkRat 1 2 := by
  decide

/-- C5 counterexample: on an input matching no keyword, all six categories
attain the equal best score 0, but classify returns the sentinel unknown
rather than the enumeration-earliest category requirements. -/
theorem classify_tiebreak_cex :
    catScores "qqq" = [0, 0, 0, 0, 0, 0] ∧
    bestScore "qqq" = 0 ∧
    classify "qqq" = ⟨"unknown", 0⟩ ∧
    (classify "qqq").category ≠ "requirements" := by
  decide

/-- C5 amended: classify tracks the best category with strict greater-than
over the fixed enumeration order, so whenever the best score reaches the
0.15 floor, the returned category is the earliest one attaining the best
score: every strictly earlier category scores strictly below it. Below the
floor the category is overridden to unknown, which is what the
counterexample exhibits. -/
theorem classify_tiebreak_first (raw : String)
    (h : mkRat 3 20 ≤ bestScore raw) :
    ∃ i, i < cats.length ∧
      scoreCategory (normalizeText raw) (catAt i).2 = bestScore raw ∧
      (classify raw).category = (catAt i).1 ∧
      ∀ j, j < i →
        scoreCategory (normalizeText raw) (catAt j).2 < bestScore raw := by
  have h0 : (0 : ℚ) < bestScore raw :=
    lt_of_lt_of_le (by decide : (0 : ℚ) < mkRat 3 20) h
  rcases foldBest_spec (normalizeText raw) cats ⟨"unknown", 0⟩ with
    ⟨heq, hall⟩ | ⟨i, hi, heq, hgt, hfirst, hmax⟩
  · exfalso
    have hc : (classifyFold raw).confidence = 0 := by unfold classifyFold; rw [heq]
    have hb := classifyFold_confidence raw
    rw [hc] at hb
    rw [← hb] at h0
    exact lt_irrefl 0 h0
  · have hcf : (classifyFold raw).confidence =
        scoreCategory (normalizeText raw) ((cats.get ⟨i, hi⟩).2) := by
      unfold classifyFold; rw [heq]
    have hscore : scoreCategory (normalizeText raw) ((cats.get ⟨i, hi⟩).2) =
        bestScore raw := by
      rw [← hcf]; exact classifyFold_confidence raw
    refine ⟨i, hi, ?_, ?_, ?_⟩
    · rw [catAt_get i hi]; exact hscore
    · unfold classify
      rw [if_neg (by rw [classifyFold_confidence raw]; exact not_lt.mpr h)]
      unfold classifyFold
      rw [heq, catAt_get i hi]
    · intro j hji
      have hj : j < cats.length := lt_trans hji hi
      rw [catAt_get j hj, ← hscore]
      exact hfirst j hj hji

set_option maxHeartbeats 1600000 in
/-- C5 amended, witness: on the input requirement deadline the categories
requirements and deadline tie at the best score 1/3, which is above the
floor, and classify returns the earliest of them. -/
theorem classify_tiebreak_first_witness :
    (mkRat 3 20 ≤ bestScore "requirement deadline") ∧
    (∃ i, i < cats.length ∧
      scoreCategory (normalizeText "requirement deadline") (catAt i).2 =
        bestScore "requirement deadline" ∧
      (classify "requirement deadline").category = (catAt i).1 ∧
      ∀ j, j < i →
        scoreCategory (normalizeText "requirement deadline") (catAt j).2 <
          bestScore "requirement deadline") :=
  ⟨by decide, classify_tiebreak_first "requirement deadline" (by decide)⟩

/-- C6: whenever the best per-category score is below the 0.15 floor the
returned category is unknown while the returned confidence is still the
computed sub-threshold best score; in particular on a text containing no
keyword of any category, classify returns unknown with confidence 0. -/
theorem classify_threshold (raw : String) :
    (bestScore raw < mkRat 3 20 →
      (classify raw).category = "unknown" ∧
      (classify raw).confidence = bestScore raw) ∧
    ((∀ c ∈ cats, ∀ w ∈ c.2, occursB w (normalizeText raw) = false) →
      classify raw = ⟨"unknown", 0⟩) := by
  constructor
  · intro h
    have hcat : (classify raw).category = "unknown" := by
      unfold classify
      rw [if_pos (by rw [classifyFold_confidence raw]; exact h)]
    exact ⟨hcat, classify_confidence raw⟩
  · intro h
    have hzero : ∀ c ∈ cats, scoreCategory (normalizeText raw) c.2 = 0 :=
      fun c hc => scoreCategory_zero _ _ (h c hc)
    have hfold : classifyFold raw = ⟨"unknown", 0⟩ := by
      rcases foldBest_spec (normalizeText raw) cats ⟨"unknown", 0⟩ with
        ⟨heq, _⟩ | ⟨i, hi, _, hgt, _, _⟩
      · unfold classifyFold; rw [heq]
      · exfalso
        have hz := hzero (cats.get ⟨i, hi⟩) (List.get_mem _ _ _)
        rw [hz] at hgt
        exact absurd hgt (by decide)
    unfold classify
    rw [hfold]
    decide

/-- C6 witness: a keyword-free input. -/
theorem classify_threshold_witness :
    (bestScore "zzz" < mkRat 3 20) ∧
    ((classify "zzz").category = "unknown" ∧
      (classify "zzz").confidence = bestScore "zzz") ∧
    classify "zzz" = ⟨"unknown", 0⟩ :=
  ⟨by decide, (classify_threshold "zzz").1 (by decide),
    (classify_threshold "zzz").2 (by decide)⟩

/-- C7: when every keyword of one category occurs in the normalized text and
no keyword of any other category occurs, classify returns that category with
confidence 1. -/
theorem classify_unique_full_match (raw : String) (k : Nat)
    (hk : k < cats.length)
    (hfull : ∀ w ∈ (catAt k).2, occursB w (normalizeText raw) = true)
    (hother : ∀ j, j < cats.length → j ≠ k →
      ∀ w ∈ (catAt j).2, occursB w (normalizeText raw) = false) :
    classify raw = ⟨(catAt k).1, 1⟩ := by
  rw [catAt_get k hk] at hfull ⊢
  have hlen : ∀ c ∈ cats, c.2.length ≠ 0 := by decide
  have hks : scoreCategory (normalizeText raw) ((cats.get ⟨k, hk⟩).2) = 1 :=
    scoreCategory_full _ _ (hlen _ (List.get_mem _ _ _)) hfull
  have hjs : ∀ j, ∀ hj : j < cats.length, j ≠ k →
      scoreCategory (normalizeText raw) ((cats.get ⟨j, hj⟩).2) = 0 := by
    intro j hj hne
    have := hother j hj hne
    rw [catAt_get j hj] at this
    exact scoreCategory_zero _ _ this
  rcases foldBest_spec (normalizeText raw) cats ⟨"unknown", 0⟩ with
    ⟨heq, hall⟩ | ⟨i, hi, heq, hgt, hfirst, hmax⟩
  · exfalso
    have h1 := hall (cats.get ⟨k, hk⟩) (List.get_mem _ _ _)
    rw [hks] at h1
    exact absurd h1 (by decide)
  · have hik : i = k := by
      by_contra hne
      have h0 := hjs i hi hne
      rw [h0] at hgt
      exact absurd hgt (by decide)
    subst hik
    have hcf : classifyFold raw = ⟨(cats.get ⟨i, hi⟩).1, 1⟩ := by
      unfold classifyFold
      rw [heq]
      exact congrArg _ hks
    unfold classify
    rw [hcf]
    have hnot : ¬ ((1 : ℚ) < mkRat 3 20) := by decide
    rw [if_neg hnot]

/-- C7 witness: the input hello hi hey contains the full greeting keyword
set and no keyword of any other category, and classify returns greeting with
confidence 1. -/
theorem classify_unique_full_match_witness :
    classify "hello hi hey" = ⟨(catAt 5).1, 1⟩ :=
  classify_unique_full_match "hello hi hey" 5 (by decide) (by decide)
    (by decide)

/-- C2 counterexample: directly after a finish request that returns status
200 with an empty body, endStream returns ok = false, so returning ok = true
is not equivalent to the finish request returning status 200. -/
theorem endStream_ok_iff_success_cex :
    ¬ (((sttEndStream STTState.Streaming ⟨200, ""⟩ "prev").1 = true) ↔
      (HttpResp.mk 200 "").status = 200) := by
  decide

/-- C2 amended: while Streaming, endStream returns ok = true exactly when
the finish request returns status 200 and the response body is nonempty; on
status 200 the stored transcript is the body, and on any non-success the
transcript is empty and ok is false. -/
theorem endStream_transcript_ok (resp : HttpResp) (ft : String) :
    ((sttEndStream STTState.Streaming resp ft).1 = true ↔
      (resp.status = 200 ∧ resp.body ≠ "")) ∧
    (resp.status = 200 →
      (sttEndStream STTState.Streaming resp ft).2.2 = resp.body) ∧
    (resp.status ≠ 200 →
      (sttEndStream STTState.Streaming resp ft).2.2 = "" ∧
      (sttEndStream STTState.Streaming resp ft).1 = false) := by
  by_cases hs : resp.status = 200 <;>
    simp [sttEndStream, hs, String.isEmpty_iff, Bool.eq_false_iff, ne_eq,
      not_congr (String.isEmpty_iff _)]

/-- C2 amended, witness: status 200 with a nonempty body yields ok and the
body as transcript. -/
theorem endStream_transcript_ok_witness :
    ((sttEndStream STTState.Streaming ⟨200, "ok"⟩ "prev").1 = true) ∧
    ((sttEndStream STTState.Streaming ⟨200, "ok"⟩ "prev").2.2 = "ok") :=
  ⟨(endStream_transcript_ok ⟨200, "ok"⟩ "prev").1.mpr (by decide),
   (endStream_transcript_ok ⟨200, "ok"⟩ "prev").2.1 (by decide)⟩

/-- C3: a call to endStream in the Streaming state leaves the session Idle,
whatever the finish request returned. -/
theorem endStream_always_idle (resp : HttpResp) (ft : String) :
    (sttEndStream STTState.Streaming resp ft).2.1 = STTState.Idle := by
  simp [sttEndStream]

/-- C4: the session machine allows only Idle to Streaming on successful
beginStream and Streaming to Idle on endStream. pushAudio and endStream in
Idle fail and change nothing, beginStream in Streaming fails and changes
nothing, and pushAudio in Streaming keeps the state Streaming whatever the
transport reports for the chunk upload. -/
theorem stt_state_machine (chunk : List Int) (rc : Int) (resp : HttpResp)
    (ft : String) :
    sttPushAudio STTState.Idle chunk rc = (false, STTState.Idle) ∧
    sttEndStream STTState.Idle resp ft = (false, STTState.Idle, ft) ∧
    sttBeginStream STTState.Streaming = (false, STTState.Streaming) ∧
    (sttPushAudio STTState.Streaming chunk rc).2 = STTState.Streaming ∧
    sttBeginStream STTState.Idle = (true, STTState.Streaming) ∧
    (sttEndStream STTState.Streaming resp ft).2.1 = STTState.Idle := by
  refine ⟨?_, ?_, ?_, ?_, ?_, ?_⟩ <;>
    simp [sttPushAudio, sttEndStream, sttBeginStream]

/-- C10: a call to endStream in the Idle state returns false and leaves both
the state and the callers finalText out-parameter untouched. -/
theorem endStream_idle_frame (resp : HttpResp) (ft : String) :
    sttEndStream STTState.Idle resp ft = (false, STTState.Idle, ft) := by
  simp [sttEndStream]

/-- C9: requestAndPlay returns false with no audio forwarded to the playback
sink when the synthesis response status is not 200, and returns true on a
200 response once the stream is exhausted, whatever its length. -/
theorem requestAndPlay_spec (resp : TtsResp) :
    (resp.status ≠ 200 → ttsRequestAndPlay resp = (false, [])) ∧
    (resp.status = 200 → (ttsRequestAndPlay resp).1 = true) := by
  constructor
  · intro h
    unfold ttsRequestAndPlay
    rw [if_pos h]
  · intro h
    unfold ttsRequestAndPlay
    rw [if_neg (by simp [h])]

/-- C9 witness: a failed request plays nothing; a successful request returns
true. -/
theorem requestAndPlay_spec_witness :
    ttsRequestAndPlay ⟨404, [7]⟩ = (false, []) ∧
    (ttsRequestAndPlay ⟨200, [7, 0]⟩).1 = true :=
  ⟨(requestAndPlay_spec ⟨404, [7]⟩).1 (by decide),
   (requestAndPlay_spec ⟨200, [7, 0]⟩).2 (by decide)⟩

lemma foldl_sumsq (buf : List Int) :
    ∀ a : ℝ, buf.foldl (fun (acc : ℝ) (s : Int) => acc + (s : ℝ) * (s : ℝ)) a =
      a + ((buf.map fun s : Int => (s : ℝ) * (s : ℝ)).sum) := by
  induction buf with
  | nil => intro a; simp
  | cons s l ih =>
    intro a
    simp only [List.foldl_cons, List.map_cons, List.sum_cons]
    rw [ih]
    ring

lemma sumSq_eq (buf : List Int) :
    sumSq buf = ((buf.map fun s : Int => (s : ℝ) * (s : ℝ)).sum) := by
  unfold sumSq
  rw [foldl_sumsq]
  ring

lemma sumSq_nonneg (buf : List Int) : 0 ≤ sumSq buf := by
  rw [sumSq_eq]
  apply List.sum_nonneg
  intro x hx
  obtain ⟨s, _, rfl⟩ := List.mem_map.mp hx
  exact mul_self_nonneg _

lemma sumSq_le (buf : List Int)
    (hb : ∀ s ∈ buf, -32768 ≤ s ∧ s ≤ 32767) :
    sumSq buf ≤ (buf.length : ℝ) * (32768 * 32768) := by
  rw [sumSq_eq]
  have h := List.sum_le_card_nsmul (buf.map fun s : Int => (s : ℝ) * (s : ℝ))
    (32768 * 32768) ?_
  · rw [List.length_map] at h
    rw [nsmul_eq_mul] at h
    exact h
  · intro x hx
    obtain ⟨s, hs, rfl⟩ := List.mem_map.mp hx
    have h1 : ((-32768 : Int) : ℝ) ≤ (s : ℝ) := by exact_mod_cast (hb s hs).1
    have h2 : ((s : ℝ)) ≤ ((32767 : Int) : ℝ) := by exact_mod_cast (hb s hs).2
    push_cast at h1 h2
    have habs : |(s : ℝ)| ≤ 32768 := by
      rw [abs_le]
      constructor <;> linarith
    calc (s : ℝ) * (s : ℝ) = |(s : ℝ)| * |(s : ℝ)| := (abs_mul_abs_self _).symm
      _ ≤ 32768 * 32768 :=
        mul_le_mul habs habs (abs_nonneg _) (by norm_num)

lemma rms_replicate (n : Nat) (hn : 0 < n) (c : Int) :
    rms (List.replicate n c) = |(c : ℝ)| / 32768 := by
  unfold rms
  rw [if_neg (by simp; omega)]
  have hs : sumSq (List.replicate n c) = (n : ℝ) * ((c : ℝ) * c) := by
    rw [sumSq_eq, List.map_replicate, List.sum_replicate, nsmul_eq_mul]
  have hn' : (n : ℝ) ≠ 0 := Nat.cast_ne_zero.mpr (Nat.pos_iff_ne_zero.mp hn)
  rw [hs, List.length_replicate, mul_div_cancel_left₀ _ hn',
    Real.sqrt_mul_self_eq_abs]

/-- C8: rms is a pure function of the frame returning the root-mean-square
of the valid samples normalized by 32768: for any frame of int16 samples the
value lies in the interval from 0 to 1, the empty frame gives 0, a frame at
the negative full-scale magnitude 32768 gives exactly 1, and a frame at the
positive full scale 32767 gives 32767/32768, within 1/10000 of 1. -/
theorem rms_spec (buf : List Int) (n : Nat)
    (hb : ∀ s ∈ buf, -32768 ≤ s ∧ s ≤ 32767) (hn : 0 < n) :
    (0 ≤ rms buf ∧ rms buf ≤ 1) ∧
    rms [] = 0 ∧
    rms (List.replicate n (-32768)) = 1 ∧
    rms (List.replicate n 32767) = 32767 / 32768 ∧
    |rms (List.replicate n 32767) - 1| < 1 / 10000 := by
  refine ⟨⟨?_, ?_⟩, ?_, ?_, ?_, ?_⟩
  · unfold rms
    split
    · exact le_refl 0
    · positivity
  · unfold rms
    split
    · norm_num
    · rename_i hlen
      have hpos : (0 : ℝ) < (buf.length : ℝ) := by
        have : buf.length ≠ 0 := hlen
        have : 0 < buf.length := Nat.pos_iff_ne_zero.mpr this
        exact_mod_cast this
      have hmean : sumSq buf / (buf.length : ℝ) ≤ 32768 * 32768 := by
        rw [div_le_iff₀ hpos]
        calc sumSq buf ≤ (buf.length : ℝ) * (32768 * 32768) := sumSq_le buf hb
          _ = 32768 * 32768 * (buf.length : ℝ) := by ring
      have hsqrt : Real.sqrt (sumSq buf / (buf.length : ℝ)) ≤ 32768 := by
        calc Real.sqrt (sumSq buf / (buf.length : ℝ))
            ≤ Real.sqrt (32768 * 32768) := Real.sqrt_le_sqrt hmean
          _ = 32768 := Real.sqrt_mul_self (by norm_num)
      rw [div_le_one (by norm_num : (0 : ℝ) < 32768)]
      exact hsqrt
  · unfold rms
    norm_num
  · rw [rms_replicate n hn (-32768)]
    norm_num
  · rw [rms_replicate n hn 32767]
    norm_num
  · rw [rms_replicate n hn 32767]
    rw [abs_lt]
    constructor <;> norm_num

/-- C8 witness: a concrete two-sample frame and concrete full-scale
frames. -/
theorem rms_spec_witness :
    (0 ≤ rms [100, -200] ∧ rms [100, -200] ≤ 1) ∧
    rms [] = 0 ∧
    rms (List.replicate 2 (-32768)) = 1 ∧
    rms (List.replicate 2 32767) = 32767 / 32768 ∧
    |rms (List.replicate 2 32767) - 1| < 1 / 10000 :=
  rms_spec [100, -200] 2 (by decide) (by decide)
